import Mathlib

/-!
Verification of the statistics library in `homework2/stats_functions.py`.

The numeric core is embedded shallowly over the real numbers: Python floats
are idealized as elements of ℝ, and every operation of the source that can
raise a runtime exception (division by zero, `math.sqrt` of a negative
number, arithmetic on `None`, indexing past the end of a list) is modelled
by an `Except`-valued function that returns the corresponding error exactly
when the Python code would raise.  The SciPy cumulative-distribution
functions are external oracles and enter as explicit function parameters.
-/

namespace StatsFunctions

/-- Runtime errors the Python source can raise: division by zero
(ZeroDivisionError), a negative argument to math.sqrt (ValueError, "math
domain error"), arithmetic on None (TypeError), and indexing an empty or
too-short list (IndexError).  The spec's "DomainError" taxonomy covers the
first two. -/
inductive PyError where
  | zeroDivision
  | mathDomain
  | typeError
  | indexError
deriving DecidableEq

/-- Embedding of math.sqrt, which raises ValueError on a negative argument. -/
noncomputable def mathSqrt (x : ℝ) : Except PyError ℝ :=
  if x < 0 then .error .mathDomain else .ok (Real.sqrt x)

/-- Embedding of arithmetic_mean: the running total over the list divided by
its length; the division raises ZeroDivisionError exactly when the list is
empty. -/
noncomputable def arithmetic_mean (data : List ℝ) : Except PyError ℝ :=
  if data.length = 0 then .error .zeroDivision
  else .ok (data.sum / (data.length : ℝ))

/-- Embedding of harmonic_mean: a single pass accumulating the reciprocal sum
and the count of strictly positive elements; returns 0 when the count is 0,
otherwise divides count by the reciprocal sum (that division is the one
fallible operation of the source). -/
noncomputable def harmonic_mean (data : List ℝ) : Except PyError ℝ :=
  let acc := data.foldl
    (fun rc x => if 0 < x then (rc.1 + 1 / x, rc.2 + 1) else rc)
    ((0 : ℝ), (0 : ℕ))
  if acc.2 = 0 then .ok 0
  else if acc.1 = 0 then .error .zeroDivision
  else .ok ((acc.2 : ℝ) / acc.1)

/-- Embedding of standard_deviation: mean via arithmetic_mean (which raises
on an empty list), then the sum of squared deviations divided by the length,
then math.sqrt. -/
noncomputable def standard_deviation (data : List ℝ) : Except PyError ℝ :=
  match arithmetic_mean data with
  | .error e => .error e
  | .ok mean =>
      let squared_diff_sum := (data.map fun x => (x - mean) ^ 2).sum
      mathSqrt (squared_diff_sum / (data.length : ℝ))

/-- Embedding of pooled_std: zip the standard deviations with the (integer)
group sizes, form the weighted sum of squares and the total degrees of
freedom, divide (ZeroDivisionError when the total is 0) and take math.sqrt. -/
noncomputable def pooled_std (std_list : List ℝ) (n_list : List ℤ) : Except PyError ℝ :=
  let pairs := std_list.zip n_list
  let numerator := (pairs.map fun p => ((p.2 - 1 : ℤ) : ℝ) * p.1 ^ 2).sum
  let denominator : ℤ := (pairs.map fun p => p.2 - 1).sum
  if denominator = 0 then .error .zeroDivision
  else mathSqrt (numerator / (denominator : ℝ))

/-- Embedding of t_test.  When both raw datasets are supplied the summary
arguments are ignored and the means (arithmetic or harmonic, per mean_type),
standard deviations and sizes are recomputed from the data; otherwise the
six summary arguments are used and a missing one is a TypeError, since the
Python source would then do arithmetic on None.  The core then follows the
source line by line: df = n1+n2-2 (ZeroDivisionError when 0), the pooled
standard error via math.sqrt, the t statistic (ZeroDivisionError when its
denominator is 0, and 1/n1, 1/n2 each raise when the size is 0), and the
two-tailed p-value from the Student-t CDF oracle. -/
noncomputable def t_test (cdf_t : ℝ → ℤ → ℝ)
    (data1 data2 : Option (List ℝ))
    (mu1 mu2 sigma1 sigma2 : Option ℝ)
    (n1 n2 : Option ℤ)
    (mean_type : String) : Except PyError (ℝ × ℝ) :=
  let resolved : Except PyError (ℝ × ℝ × ℝ × ℝ × ℤ × ℤ) :=
    match data1, data2 with
    | some d1, some d2 =>
        let meanOf : List ℝ → Except PyError ℝ :=
          if mean_type = "harmonic" then harmonic_mean else arithmetic_mean
        match meanOf d1 with
        | .error e => .error e
        | .ok m1 =>
          match meanOf d2 with
          | .error e => .error e
          | .ok m2 =>
            match standard_deviation d1 with
            | .error e => .error e
            | .ok s1 =>
              match standard_deviation d2 with
              | .error e => .error e
              | .ok s2 => .ok (m1, m2, s1, s2, (d1.length : ℤ), (d2.length : ℤ))
    | _, _ =>
        match mu1, mu2, sigma1, sigma2, n1, n2 with
        | some m1, some m2, some s1, some s2, some k1, some k2 =>
            .ok (m1, m2, s1, s2, k1, k2)
        | _, _, _, _, _, _ => .error .typeError
  match resolved with
  | .error e => .error e
  | .ok (m1, m2, s1, s2, k1, k2) =>
      let df : ℤ := k1 + k2 - 2
      if df = 0 then .error .zeroDivision
      else
        match mathSqrt ((((k1 - 1 : ℤ) : ℝ) * s1 ^ 2 + ((k2 - 1 : ℤ) : ℝ) * s2 ^ 2)
            / (df : ℝ)) with
        | .error e => .error e
        | .ok sp =>
            if k1 = 0 then .error .zeroDivision
            else if k2 = 0 then .error .zeroDivision
            else
              match mathSqrt (1 / (k1 : ℝ) + 1 / (k2 : ℝ)) with
              | .error e => .error e
              | .ok se =>
                  if sp * se = 0 then .error .zeroDivision
                  else
                    let t_value := (m1 - m2) / (sp * se)
                    let p_value := 2 * (1 - cdf_t |t_value| df)
                    .ok (t_value, p_value)

/-- Value of the arithmetic mean on a non-empty list (total companion of
arithmetic_mean). -/
noncomputable def meanVal (data : List ℝ) : ℝ := data.sum / (data.length : ℝ)

/-- Embedding of one_way_anova: pool all samples, take the overall mean
(raising when everything is empty), compute per-group means inside the loop
(the first empty group raises ZeroDivisionError), accumulate the between-
and within-group sums of squares, and divide by the degrees of freedom,
each division raising when its denominator is 0. -/
noncomputable def one_way_anova (cdf_f : ℝ → ℤ → ℤ → ℝ)
    (groups : List (List ℝ)) : Except PyError (ℝ × ℝ) :=
  let all_data : List ℝ := groups.flatten
  match arithmetic_mean all_data with
  | .error e => .error e
  | .ok overall_mean =>
      if groups.any List.isEmpty then .error .zeroDivision
      else
        let ss_between :=
          (groups.map fun g => (g.length : ℝ) * (meanVal g - overall_mean) ^ 2).sum
        let ss_within :=
          (groups.map fun g => ((g.map fun x => (x - meanVal g) ^ 2).sum)).sum
        let df_between : ℤ := (groups.length : ℤ) - 1
        let df_within : ℤ := (all_data.length : ℤ) - (groups.length : ℤ)
        if df_between = 0 then .error .zeroDivision
        else
          let ms_between := ss_between / (df_between : ℝ)
          if df_within = 0 then .error .zeroDivision
          else
            let ms_within := ss_within / (df_within : ℝ)
            if ms_within = 0 then .error .zeroDivision
            else
              let F := ms_between / ms_within
              .ok (F, 1 - cdf_f F df_between df_within)

/-- Embedding of repeated_measures_anova: n = number of rows (IndexError on
an empty matrix when reading row 0), k = length of the first row; overall
mean over all cells, per-row means (an empty row raises), per-column means
for the first k columns (a row shorter than k raises IndexError), then the
sums of squares, the degrees of freedom, and the F and p values, with each
division raising when its denominator is 0. -/
noncomputable def repeated_measures_anova (cdf_f : ℝ → ℤ → ℤ → ℝ)
    (data_matrix : List (List ℝ)) : Except PyError (ℝ × ℝ) :=
  match data_matrix with
  | [] => .error .indexError
  | row0 :: _ =>
      let n := data_matrix.length
      let k := row0.length
      let all_values : List ℝ := data_matrix.flatten
      match arithmetic_mean all_values with
      | .error e => .error e
      | .ok overall_mean =>
          if data_matrix.any List.isEmpty then .error .zeroDivision
          else if data_matrix.any (fun row => row.length < k) then .error .indexError
          else
            let condition_mean : ℕ → ℝ := fun j =>
              meanVal (data_matrix.map fun row => row.getD j 0)
            let ss_subjects :=
              (data_matrix.map fun row =>
                ((List.range k).map fun j => (row.getD j 0 - meanVal row) ^ 2).sum).sum
            let ss_conditions :=
              ((List.range k).map fun j =>
                (n : ℝ) * (condition_mean j - overall_mean) ^ 2).sum
            let ss_error := ss_subjects - ss_conditions
            let df_conditions : ℤ := (k : ℤ) - 1
            let df_subjects : ℤ := (n : ℤ) - 1
            let df_error : ℤ := df_conditions * df_subjects
            if df_conditions = 0 then .error .zeroDivision
            else
              let ms_conditions := ss_conditions / (df_conditions : ℝ)
              if df_error = 0 then .error .zeroDivision
              else
                let ms_error := ss_error / (df_error : ℝ)
                if ms_error = 0 then .error .zeroDivision
                else
                  let F := ms_conditions / ms_error
                  .ok (F, 1 - cdf_f F df_conditions df_error)

/-- Sublist of the strictly positive elements, in order. -/
noncomputable def posFilter (data : List ℝ) : List ℝ :=
  data.filter fun x => decide (0 < x)

/-- Spec-side value of the harmonic mean, written from the spec's words:
count of strictly-positive elements divided by the sum of their reciprocals,
elements at most 0 excluded from both, and 0 when no element is strictly
positive. -/
noncomputable def harmonicSpecVal (data : List ℝ) : ℝ :=
  if (posFilter data).length = 0 then 0
  else ((posFilter data).length : ℝ) / ((posFilter data).map fun x => 1 / x).sum

/-- Spec-side value of the standard deviation, written from the spec's words:
squared deviations from the arithmetic mean, divided by the full count n
(not n-1), then square-rooted. -/
noncomputable def stdSpecVal (data : List ℝ) : ℝ :=
  Real.sqrt ((data.map fun x => (x - meanVal data) ^ 2).sum / (data.length : ℝ))

theorem arithmetic_mean_ok (data : List ℝ) (h : data ≠ []) :
    arithmetic_mean data = .ok (meanVal data) := by
  have : data.length ≠ 0 := fun hl => h (List.length_eq_zero.mp hl)
  simp [arithmetic_mean, meanVal, this]

theorem sq_dev_sum_nonneg (data : List ℝ) (m : ℝ) :
    0 ≤ (data.map fun x => (x - m) ^ 2).sum := by
  apply List.sum_nonneg
  intro y hy
  rcases List.mem_map.mp hy with ⟨x, _, rfl⟩
  positivity

theorem standard_deviation_ok (data : List ℝ) (h : data ≠ []) :
    standard_deviation data = .ok (stdSpecVal data) := by
  have hnz : (0 : ℝ) ≤ (data.map fun x => (x - meanVal data) ^ 2).sum /
      (data.length : ℝ) := by
    apply div_nonneg (sq_dev_sum_nonneg data (meanVal data))
    exact_mod_cast Nat.zero_le _
  rw [standard_deviation, arithmetic_mean_ok data h]
  simp [mathSqrt, stdSpecVal, not_lt.mpr hnz]

theorem harmonic_foldl (data : List ℝ) (a : ℝ) (c : ℕ) :
    data.foldl (fun rc x => if 0 < x then (rc.1 + 1 / x, rc.2 + 1) else rc) (a, c) =
      (a + ((posFilter data).map fun x => 1 / x).sum, c + (posFilter data).length) := by
  induction data generalizing a c with
  | nil => simp [posFilter]
  | cons x xs ih =>
      by_cases hx : 0 < x
      · simp only [List.foldl_cons, if_pos hx, ih, posFilter, List.filter_cons,
          decide_eq_true hx, if_true, List.map_cons, List.sum_cons, List.length_cons]
        refine Prod.ext ?_ ?_ <;> simp <;> ring
      · simp only [List.foldl_cons, if_neg hx, ih, posFilter, List.filter_cons]
        have : decide (0 < x) = false := decide_eq_false hx
        simp [this]

theorem posFilter_mem_pos (data : List ℝ) {x : ℝ} (hx : x ∈ posFilter data) : 0 < x := by
  have := List.of_mem_filter hx
  exact of_decide_eq_true this

theorem posFilter_recip_sum_pos (data : List ℝ) (h : (posFilter data).length ≠ 0) :
    0 < ((posFilter data).map fun x => 1 / x).sum := by
  apply List.sum_pos
  · intro y hy
    rcases List.mem_map.mp hy with ⟨x, hx, rfl⟩
    have := posFilter_mem_pos data hx
    positivity
  · intro hmap
    apply h
    have := congrArg List.length hmap
    simpa using this

theorem harmonic_mean_ok (data : List ℝ) :
    harmonic_mean data = .ok (harmonicSpecVal data) := by
  rw [harmonic_mean]
  simp only [harmonic_foldl data 0 0, zero_add]
  by_cases hc : (posFilter data).length = 0
  · simp [hc, harmonicSpecVal]
  · have hne : ((posFilter data).map fun x => 1 / x).sum ≠ 0 :=
      ne_of_gt (posFilter_recip_sum_pos data hc)
    rw [if_neg hc, if_neg hne]
    simp [harmonicSpecVal, hc, hne]

/-- C2: for every non-empty sequence of samples, standard_deviation returns
the square root of the sum of squared deviations from the arithmetic mean
divided by the full count n (divisor n, not n-1). -/
theorem claim_C2 (data : List ℝ) (h : data ≠ []) :
    standard_deviation data =
      .ok (Real.sqrt ((data.map fun x =>
        (x - data.sum / (data.length : ℝ)) ^ 2).sum / (data.length : ℝ))) := by
  rw [standard_deviation_ok data h]
  simp [stdSpecVal, meanVal]

/-- Witness for C2 at the concrete input [1, 2]. -/
theorem claim_C2_witness :
    standard_deviation [(1 : ℝ), 2] =
      .ok (Real.sqrt ((([(1 : ℝ), 2]).map fun x =>
        (x - ([(1 : ℝ), 2]).sum / (([(1 : ℝ), 2]).length : ℝ)) ^ 2).sum /
          (([(1 : ℝ), 2]).length : ℝ))) :=
  claim_C2 [(1 : ℝ), 2] (by simp)

/-- C3, counterexample: harmonic_mean on the empty sequence returns the value
0 instead of failing, so not every mean routine fails with a DomainError on
empty input. -/
theorem claim_C3_counterexample :
    harmonic_mean ([] : List ℝ) = .ok 0 := by
  simp [harmonic_mean]

/-- C3, amended: on the empty sequence, arithmetic_mean and
standard_deviation fail with the DomainError (division by zero), while
harmonic_mean returns the value 0. -/
theorem claim_C3 :
    arithmetic_mean ([] : List ℝ) = .error .zeroDivision ∧
    standard_deviation ([] : List ℝ) = .error .zeroDivision ∧
    harmonic_mean ([] : List ℝ) = .ok 0 := by
  refine ⟨by simp [arithmetic_mean], ?_, by simp [harmonic_mean]⟩
  simp [standard_deviation, arithmetic_mean]

/-- C4, counterexample: with std_list = [2, 0] and n_list = [0, 3] the total
degrees of freedom (0-1) + (3-1) = 1 is positive, yet pooled_std fails with
the math-domain error (math.sqrt of the negative pooled variance -4) instead
of returning a value, so the positive-sum branch of the claim fails for
group sizes below 1. -/
theorem claim_C4_counterexample :
    pooled_std [(2 : ℝ), 0] [(0 : ℤ), 3] = .error .mathDomain ∧
    (0 : ℤ) < (((0 : ℤ) - 1) + ((3 : ℤ) - 1)) := by
  refine ⟨?_, by decide⟩
  rw [pooled_std]
  norm_num [mathSqrt]

/-- C4, amended: for equal-length lists with every group size at least 1,
pooled_std fails with the division-by-zero DomainError when the total
degrees of freedom is 0, and returns the square root of the pooled variance
when it is positive. -/
theorem claim_C4 (std_list : List ℝ) (n_list : List ℤ)
    (hlen : std_list.length = n_list.length)
    (hn : ∀ n ∈ n_list, 1 ≤ n) :
    ((((std_list.zip n_list).map fun p => p.2 - 1).sum = 0 →
        pooled_std std_list n_list = .error .zeroDivision) ∧
     (0 < (((std_list.zip n_list).map fun p => p.2 - 1).sum : ℤ) →
        pooled_std std_list n_list =
          .ok (Real.sqrt (((std_list.zip n_list).map
              fun p => ((p.2 - 1 : ℤ) : ℝ) * p.1 ^ 2).sum /
            (((((std_list.zip n_list).map fun p => p.2 - 1).sum : ℤ)) : ℝ))))) := by
  constructor
  · intro hz
    simp [pooled_std, hz]
  · intro hpos
    have hnum : 0 ≤ ((std_list.zip n_list).map
        fun p => ((p.2 - 1 : ℤ) : ℝ) * p.1 ^ 2).sum := by
      apply List.sum_nonneg
      intro y hy
      rcases List.mem_map.mp hy with ⟨p, hp, rfl⟩
      have hmem : p.2 ∈ n_list := (List.of_mem_zip hp).2
      have h1 : (0 : ℤ) ≤ p.2 - 1 := by
        have := hn p.2 hmem
        omega
      have h1r : (0 : ℝ) ≤ ((p.2 - 1 : ℤ) : ℝ) := by exact_mod_cast h1
      positivity
    have hden : (0 : ℝ) < ((((std_list.zip n_list).map fun p => p.2 - 1).sum : ℤ) : ℝ) := by
      exact_mod_cast hpos
    have harg : (0 : ℝ) ≤ ((std_list.zip n_list).map
        fun p => ((p.2 - 1 : ℤ) : ℝ) * p.1 ^ 2).sum /
          ((((std_list.zip n_list).map fun p => p.2 - 1).sum : ℤ) : ℝ) :=
      div_nonneg hnum (le_of_lt hden)
    rw [pooled_std]
    simp only [if_neg (by exact_mod_cast ne_of_gt hpos : ¬_ = (0 : ℤ))]
    simp only [mathSqrt, if_neg (not_lt.mpr harg)]

/-- Witness for C4 at std_list = [1] and n_list = [2]. -/
theorem claim_C4_witness :
    pooled_std [(1 : ℝ)] [(2 : ℤ)] = .ok (Real.sqrt 1) := by
  have h := (claim_C4 [(1 : ℝ)] [(2 : ℤ)] (by simp) (by decide)).2 (by decide)
  rw [h]
  norm_num

/-- C8: harmonic_mean always returns a value, namely the count of strictly
positive elements divided by the sum of their reciprocals, with elements at
most 0 excluded from both, and 0 when no element is strictly positive (as
stated by the spec-side definition harmonicSpecVal). -/
theorem claim_C8 (data : List ℝ) :
    harmonic_mean data = .ok (harmonicSpecVal data) :=
  harmonic_mean_ok data

/-- C10: when both raw datasets are supplied, every caller-supplied summary
argument is ignored: the result coincides with the call in which all six
summary arguments are absent, for every choice of oracle and mean type. -/
theorem claim_C10 (cdf_t : ℝ → ℤ → ℝ) (d1 d2 : List ℝ)
    (mu1 mu2 sigma1 sigma2 : Option ℝ) (n1 n2 : Option ℤ) (mean_type : String) :
    t_test cdf_t (some d1) (some d2) mu1 mu2 sigma1 sigma2 n1 n2 mean_type =
      t_test cdf_t (some d1) (some d2) none none none none none none mean_type := rfl

/-- C1, counterexample: with summary statistics mu1 = 0, mu2 = 1,
sigma1 = sigma2 = 0 and n1 = n2 = 2 the precondition n1 + n2 > 2 holds,
yet t_test fails with the division-by-zero error (the pooled standard
error sp is 0) instead of returning the pair (t, p). -/
theorem claim_C1_counterexample :
    t_test (fun _ _ => 0) none none (some 0) (some 1) (some 0) (some 0)
      (some 2) (some 2) "arithmetic" = .error .zeroDivision := by
  rw [t_test]
  · norm_num [mathSqrt]
  · intro d1 d2 hcon
    cases hcon

/-- C1, amended: for groups given as summary statistics with n1, n2 at least
1, n1 + n2 > 2 and a positive pooled sum of squares
(n1-1)*sigma1^2 + (n2-1)*sigma2^2, t_test returns the pair (t, p) with
df = n1+n2-2, sp = sqrt(((n1-1)*sigma1^2 + (n2-1)*sigma2^2)/df),
t = (mu1-mu2)/(sp*sqrt(1/n1+1/n2)) and p = 2*(1 - CDF_t(|t|, df)). -/
theorem claim_C1 (cdf_t : ℝ → ℤ → ℝ) (m1 m2 s1 s2 : ℝ) (k1 k2 : ℤ)
    (mt : String) (hk1 : 1 ≤ k1) (hk2 : 1 ≤ k2) (hdf : 2 < k1 + k2)
    (hsp : 0 < ((k1 - 1 : ℤ) : ℝ) * s1 ^ 2 + ((k2 - 1 : ℤ) : ℝ) * s2 ^ 2) :
    t_test cdf_t none none (some m1) (some m2) (some s1) (some s2)
        (some k1) (some k2) mt =
      .ok ((m1 - m2) /
            (Real.sqrt ((((k1 - 1 : ℤ) : ℝ) * s1 ^ 2 + ((k2 - 1 : ℤ) : ℝ) * s2 ^ 2) /
                ((k1 + k2 - 2 : ℤ) : ℝ)) *
              Real.sqrt (1 / (k1 : ℝ) + 1 / (k2 : ℝ))),
          2 * (1 - cdf_t
            |(m1 - m2) /
              (Real.sqrt ((((k1 - 1 : ℤ) : ℝ) * s1 ^ 2 + ((k2 - 1 : ℤ) : ℝ) * s2 ^ 2) /
                  ((k1 + k2 - 2 : ℤ) : ℝ)) *
                Real.sqrt (1 / (k1 : ℝ) + 1 / (k2 : ℝ)))|
            (k1 + k2 - 2))) := by
  have hdfz : ¬(k1 + k2 - 2 : ℤ) = 0 := by omega
  have hdfpos : (0 : ℝ) < ((k1 + k2 - 2 : ℤ) : ℝ) := by
    have : (0 : ℤ) < k1 + k2 - 2 := by omega
    exact_mod_cast this
  have hargpos : 0 < (((k1 - 1 : ℤ) : ℝ) * s1 ^ 2 + ((k2 - 1 : ℤ) : ℝ) * s2 ^ 2) /
      ((k1 + k2 - 2 : ℤ) : ℝ) := div_pos hsp hdfpos
  have hspne : Real.sqrt ((((k1 - 1 : ℤ) : ℝ) * s1 ^ 2 + ((k2 - 1 : ℤ) : ℝ) * s2 ^ 2) /
      ((k1 + k2 - 2 : ℤ) : ℝ)) ≠ 0 := ne_of_gt (Real.sqrt_pos.mpr hargpos)
  have hk1z : ¬k1 = 0 := by omega
  have hk2z : ¬k2 = 0 := by omega
  have hk1r : (0 : ℝ) < (k1 : ℝ) := by exact_mod_cast lt_of_lt_of_le one_pos hk1
  have hk2r : (0 : ℝ) < (k2 : ℝ) := by exact_mod_cast lt_of_lt_of_le one_pos hk2
  have hinner : 0 < 1 / (k1 : ℝ) + 1 / (k2 : ℝ) := by positivity
  have hsene : Real.sqrt (1 / (k1 : ℝ) + 1 / (k2 : ℝ)) ≠ 0 :=
    ne_of_gt (Real.sqrt_pos.mpr hinner)
  rw [t_test]
  · simp only [if_neg hdfz, mathSqrt, if_neg (not_lt.mpr (le_of_lt hargpos)),
      if_neg (not_lt.mpr (le_of_lt hinner)), if_neg hk1z, if_neg hk2z,
      if_neg (mul_ne_zero hspne hsene)]
  · intro e1 e2 hcon
    cases hcon

/-- Witness for C1 at mu1 = 0, mu2 = 1, sigma1 = sigma2 = 1, n1 = n2 = 2,
with the constant-zero CDF oracle: t = -1 and p = 2. -/
theorem claim_C1_witness :
    t_test (fun _ _ => 0) none none (some 0) (some 1) (some 1) (some 1)
      (some 2) (some 2) "arithmetic" = .ok (-1, 2) := by
  have h := claim_C1 (fun _ _ => 0) 0 1 1 1 2 2 "arithmetic"
    (by decide) (by decide) (by decide) (by norm_num)
  rw [h]
  norm_num

/-- C5: for non-empty datasets, calling t_test with the raw data equals
calling it in summary mode with the matching mean (arithmetic, or harmonic
when mean_type is "harmonic"), the population standard deviation, and the
lengths: the two input modes are interchangeable. -/
theorem claim_C5 (cdf_t : ℝ → ℤ → ℝ) (d1 d2 : List ℝ) (mt : String)
    (h1 : d1 ≠ []) (h2 : d2 ≠ []) (hlen : 2 < d1.length + d2.length) :
    t_test cdf_t (some d1) (some d2) none none none none none none mt =
      t_test cdf_t none none
        (some (if mt = "harmonic" then harmonicSpecVal d1 else meanVal d1))
        (some (if mt = "harmonic" then harmonicSpecVal d2 else meanVal d2))
        (some (stdSpecVal d1)) (some (stdSpecVal d2))
        (some (d1.length : ℤ)) (some (d2.length : ℤ)) mt := by
  by_cases hmt : mt = "harmonic"
  · rw [t_test, t_test]
    · simp only [hmt, if_pos rfl, harmonic_mean_ok, standard_deviation_ok d1 h1,
        standard_deviation_ok d2 h2, if_true]
    · intro e1 e2 hcon
      cases hcon
  · rw [t_test, t_test]
    · simp only [if_neg hmt, arithmetic_mean_ok d1 h1, arithmetic_mean_ok d2 h2,
        standard_deviation_ok d1 h1, standard_deviation_ok d2 h2]
    · intro e1 e2 hcon
      cases hcon

/-- Witness for C5 at d1 = [1, 2], d2 = [3, 4] with the arithmetic mean. -/
theorem claim_C5_witness :
    t_test (fun _ _ => 0) (some [(1 : ℝ), 2]) (some [(3 : ℝ), 4])
        none none none none none none "arithmetic" =
      t_test (fun _ _ => 0) none none
        (some (if "arithmetic" = "harmonic" then harmonicSpecVal [(1 : ℝ), 2]
          else meanVal [(1 : ℝ), 2]))
        (some (if "arithmetic" = "harmonic" then harmonicSpecVal [(3 : ℝ), 4]
          else meanVal [(3 : ℝ), 4]))
        (some (stdSpecVal [(1 : ℝ), 2])) (some (stdSpecVal [(3 : ℝ), 4]))
        (some (([(1 : ℝ), 2].length : ℤ))) (some (([(3 : ℝ), 4].length : ℤ)))
        "arithmetic" :=
  claim_C5 (fun _ _ => 0) [(1 : ℝ), 2] [(3 : ℝ), 4] "arithmetic"
    (by simp) (by simp) (by simp)

theorem perm_any_eq {α : Type} {l1 l2 : List α} (h : l1.Perm l2) (p : α → Bool) :
    l1.any p = l2.any p := by
  cases hb : l2.any p
  · rw [List.any_eq_false] at hb ⊢
    intro x hx
    exact hb x (h.mem_iff.mp hx)
  · rw [List.any_eq_true] at hb ⊢
    rcases hb with ⟨x, hx, hpx⟩
    exact ⟨x, h.mem_iff.mpr hx, hpx⟩

/-- C6: permuting the groups passed to one_way_anova changes neither the F
statistic nor the p-value (for 2 or more non-empty groups with positive
within-group degrees of freedom, for every F-distribution oracle). -/
theorem claim_C6 (cdf_f : ℝ → ℤ → ℤ → ℝ) (gs1 gs2 : List (List ℝ))
    (hperm : gs1.Perm gs2) (hcount : 2 ≤ gs1.length)
    (hne : ∀ g ∈ gs1, g ≠ [])
    (hdf : gs1.length < (gs1.map List.length).sum) :
    one_way_anova cdf_f gs1 = one_way_anova cdf_f gs2 := by
  have hlen : gs1.length = gs2.length := hperm.length_eq
  have hfsum : gs1.flatten.sum = gs2.flatten.sum := by
    rw [List.sum_flatten, List.sum_flatten, (hperm.map List.sum).sum_eq]
  have hflen : gs1.flatten.length = gs2.flatten.length := by
    rw [List.length_flatten, List.length_flatten, (hperm.map List.length).sum_eq]
  have hmean : arithmetic_mean gs1.flatten = arithmetic_mean gs2.flatten := by
    rw [arithmetic_mean, arithmetic_mean, hfsum, hflen]
  have hany : gs1.any List.isEmpty = gs2.any List.isEmpty := perm_any_eq hperm _
  rw [one_way_anova, one_way_anova, hmean]
  cases harith : arithmetic_mean gs2.flatten with
  | error e => rfl
  | ok m =>
      have hsb : (gs1.map fun g => (g.length : ℝ) * (meanVal g - m) ^ 2).sum =
          (gs2.map fun g => (g.length : ℝ) * (meanVal g - m) ^ 2).sum :=
        (hperm.map _).sum_eq
      have hsw : (gs1.map fun g => ((g.map fun x => (x - meanVal g) ^ 2).sum)).sum =
          (gs2.map fun g => ((g.map fun x => (x - meanVal g) ^ 2).sum)).sum :=
        (hperm.map _).sum_eq
      simp only [hany, hsb, hsw, hlen, hflen]

/-- Witness for C6: swapping the two groups [1,2] and [3,4]. -/
theorem claim_C6_witness :
    one_way_anova (fun _ _ _ => 0) [[(1 : ℝ), 2], [3, 4]] =
      one_way_anova (fun _ _ _ => 0) [[(3 : ℝ), 4], [1, 2]] :=
  claim_C6 (fun _ _ _ => 0) [[(1 : ℝ), 2], [3, 4]] [[(3 : ℝ), 4], [1, 2]]
    (List.Perm.swap [(3 : ℝ), 4] [(1 : ℝ), 2] [])
    (by simp) (by simp) (by simp)

theorem range_map_getD_sum (l : List ℝ) (f : ℝ → ℝ) :
    ((List.range l.length).map fun j => f (l.getD j 0)).sum = (l.map f).sum := by
  induction l with
  | nil => simp
  | cons x xs ih =>
      rw [List.length_cons, List.range_succ_eq_map, List.map_cons, List.sum_cons,
        List.map_map]
      have h1 : ((fun j => f ((x :: xs).getD j 0)) ∘ Nat.succ) =
          fun j => f (xs.getD j 0) := by
        funext j
        simp [List.getD_cons_succ]
      rw [h1, ih, List.getD_cons_zero, List.map_cons, List.sum_cons]

/-- Spec-side overall mean of the data matrix. -/
noncomputable def rmOverallMean (m : List (List ℝ)) : ℝ := meanVal m.flatten

/-- Spec-side mean of column j of the data matrix. -/
noncomputable def rmColMean (m : List (List ℝ)) (j : ℕ) : ℝ :=
  meanVal (m.map fun row => row.getD j 0)

/-- Spec-side SS_subjects: sum over all cells of (cell - rowMean)^2. -/
noncomputable def rmSSsubjects (m : List (List ℝ)) : ℝ :=
  (m.map fun row => ((row.map fun x => (x - meanVal row) ^ 2).sum)).sum

/-- Spec-side SS_conditions: n times the sum over the k columns of
(colMean - overallMean)^2. -/
noncomputable def rmSSconditions (m : List (List ℝ)) (k : ℕ) : ℝ :=
  (m.length : ℝ) *
    ((List.range k).map fun j => (rmColMean m j - rmOverallMean m) ^ 2).sum

/-- Spec-side F statistic of the repeated-measures ANOVA:
(SS_conditions/df_conditions) / (SS_error/df_error) with
SS_error = SS_subjects - SS_conditions, df_conditions = k-1 and
df_error = (k-1)(n-1). -/
noncomputable def rmF (m : List (List ℝ)) (k : ℕ) : ℝ :=
  (rmSSconditions m k / (((k : ℤ) - 1 : ℤ) : ℝ)) /
    ((rmSSsubjects m - rmSSconditions m k) /
      (((((k : ℤ) - 1) * ((m.length : ℤ) - 1)) : ℤ) : ℝ))

/-- C7, counterexample: the all-zero 2 by 2 matrix is rectangular with
n = k = 2, yet repeated_measures_anova fails with the division-by-zero
error (SS_error = 0, so ms_error = 0) instead of returning a pair. -/
theorem claim_C7_counterexample :
    repeated_measures_anova (fun _ _ _ => 0) [[(0 : ℝ), 0], [0, 0]] =
      .error .zeroDivision := by
  rw [repeated_measures_anova]
  norm_num [arithmetic_mean, meanVal, List.range_succ]

/-- C7, amended: for a rectangular matrix with n >= 2 subjects, k >= 2
conditions and nonzero SS_error = SS_subjects - SS_conditions,
repeated_measures_anova returns (F, p) with SS_subjects the sum over all
cells of (cell - rowMean)^2, SS_conditions = n times the sum over columns
of (colMean - overallMean)^2, df_conditions = k-1,
df_error = (k-1)(n-1), F = (SS_conditions/df_conditions)/(SS_error/df_error)
and p = 1 - CDF_F(F, df_conditions, df_error).  When SS_error = 0 the code
divides by ms_error = 0 and raises instead. -/
theorem claim_C7 (cdf_f : ℝ → ℤ → ℤ → ℝ) (m : List (List ℝ)) (k : ℕ)
    (hn : 2 ≤ m.length) (hk : 2 ≤ k) (hrect : ∀ row ∈ m, row.length = k)
    (herr : rmSSsubjects m - rmSSconditions m k ≠ 0) :
    repeated_measures_anova cdf_f m =
      .ok (rmF m k,
        1 - cdf_f (rmF m k) ((k : ℤ) - 1)
          (((k : ℤ) - 1) * ((m.length : ℤ) - 1))) := by
  cases m with
  | nil => simp at hn
  | cons row0 rest =>
      have hk0 : row0.length = k := hrect row0 (List.mem_cons_self _ _)
      have hr0ne : row0 ≠ [] := by
        intro hcon
        rw [hcon] at hk0
        simp at hk0
        omega
      have hfne : (row0 :: rest).flatten ≠ [] := by
        intro hcon
        rw [List.flatten_cons] at hcon
        exact hr0ne (List.append_eq_nil.mp hcon).1
      have hmean := arithmetic_mean_ok _ hfne
      have hae : ((row0 :: rest).any List.isEmpty) = false := by
        rw [List.any_eq_false]
        intro row hrow
        have hl := hrect row hrow
        cases row with
        | nil =>
            simp at hl
            omega
        | cons y ys => simp [List.isEmpty]
      have hlt : ((row0 :: rest).any fun row => decide (row.length < k)) = false := by
        rw [List.any_eq_false]
        intro row hrow
        have hl := hrect row hrow
        simp [hl]
      have hssub : ((row0 :: rest).map fun row =>
          ((List.range k).map fun j => (row.getD j 0 - meanVal row) ^ 2).sum).sum =
          rmSSsubjects (row0 :: rest) := by
        rw [rmSSsubjects]
        apply congrArg List.sum
        apply List.map_congr_left
        intro row hrow
        have hl : k = row.length := (hrect row hrow).symm
        rw [hl]
        exact range_map_getD_sum row (fun x => (x - meanVal row) ^ 2)
      have hdfc : ¬((k : ℤ) - 1 = 0) := by omega
      have hdfe : ¬(((k : ℤ) - 1) * (((row0 :: rest).length : ℤ) - 1) = 0) := by
        apply mul_ne_zero hdfc
        have : 2 ≤ (row0 :: rest).length := hn
        omega
      have hdfer : ((((k : ℤ) - 1) * (((row0 :: rest).length : ℤ) - 1) : ℤ) : ℝ) ≠ 0 :=
        Int.cast_ne_zero.mpr hdfe
      have hmse : ¬((rmSSsubjects (row0 :: rest) - rmSSconditions (row0 :: rest) k) /
          ((((k : ℤ) - 1) * (((row0 :: rest).length : ℤ) - 1) : ℤ) : ℝ) = 0) :=
        div_ne_zero herr hdfer
      rw [repeated_measures_anova]
      rw [hmean]
      simp only [hk0, hae, hlt, Bool.false_eq_true, if_false, hssub]
      rw [if_neg hdfc, if_neg hdfe]
      rw [List.sum_map_mul_left]
      rw [if_neg ?hms]
      case hms =>
        show ¬(_ = 0)
        convert hmse using 3
      rfl

/-- Witness for C7 at the 2 by 2 matrix [[10,12],[11,15]] with the
constant-zero CDF oracle: SS_subjects = 10, SS_conditions = 9,
SS_error = 1, df_conditions = df_error = 1, F = 9 and p = 1. -/
theorem claim_C7_witness :
    repeated_measures_anova (fun _ _ _ => 0) [[(10 : ℝ), 12], [11, 15]] =
      .ok (9, 1) := by
  have h := claim_C7 (fun _ _ _ => 0) [[(10 : ℝ), 12], [11, 15]] 2
    (by simp) (by norm_num)
    (by
      intro row hrow
      simp only [List.mem_cons, List.not_mem_nil, or_false] at hrow
      rcases hrow with rfl | rfl <;> rfl)
    (by norm_num [rmSSsubjects, rmSSconditions, rmColMean, rmOverallMean, meanVal,
      List.range_succ])
  rw [h]
  norm_num [rmF, rmSSsubjects, rmSSconditions, rmColMean, rmOverallMean, meanVal,
    List.range_succ]

theorem two_le_div_add_div {a b : ℝ} (ha : 0 < a) (hb : 0 < b) :
    2 ≤ a / b + b / a := by
  rw [div_add_div _ _ (ne_of_gt hb) (ne_of_gt ha), le_div_iff (by positivity)]
  nlinarith [sq_nonneg (a - b)]

theorem two_lt_div_add_div {a b : ℝ} (ha : 0 < a) (hb : 0 < b) (hab : a ≠ b) :
    2 < a / b + b / a := by
  rw [div_add_div _ _ (ne_of_gt hb) (ne_of_gt ha), lt_div_iff (by positivity)]
  have h0 : 0 < (a - b) * (a - b) := mul_self_pos.mpr (sub_ne_zero.mpr hab)
  nlinarith

theorem sum_div_pair_eq {n : ℕ} (x : Fin n → ℝ) :
    (∑ i, ∑ j, (x i / x j + x j / x i)) =
      2 * ((∑ i, x i) * (∑ j, (x j)⁻¹)) := by
  rw [Finset.sum_mul_sum, two_mul]
  have hswap : (∑ i, ∑ j, x j * (x i)⁻¹) = ∑ i, ∑ j, x i * (x j)⁻¹ :=
    Finset.sum_comm
  calc (∑ i, ∑ j, (x i / x j + x j / x i))
      = ∑ i, ((∑ j, x i / x j) + ∑ j, x j / x i) := by
        refine Finset.sum_congr rfl fun i _ => ?_
        exact Finset.sum_add_distrib
    _ = (∑ i, ∑ j, x i / x j) + ∑ i, ∑ j, x j / x i :=
        Finset.sum_add_distrib
    _ = (∑ i, ∑ j, x i * (x j)⁻¹) + ∑ i, ∑ j, x j * (x i)⁻¹ := by
        simp only [div_eq_mul_inv]
    _ = (∑ i, ∑ j, x i * (x j)⁻¹) + ∑ i, ∑ j, x i * (x j)⁻¹ := by
        rw [hswap]

theorem sum_sum_two (n : ℕ) :
    (∑ _i : Fin n, ∑ _j : Fin n, (2 : ℝ)) = 2 * (n : ℝ) ^ 2 := by
  simp [Finset.sum_const, Finset.card_univ]
  ring

theorem sq_card_le_sum_mul_sum_inv {n : ℕ} (x : Fin n → ℝ) (hx : ∀ i, 0 < x i) :
    ((n : ℝ)) ^ 2 ≤ (∑ i, x i) * (∑ j, (x j)⁻¹) := by
  have hT : (∑ _i : Fin n, ∑ _j : Fin n, (2 : ℝ)) ≤
      ∑ i, ∑ j, (x i / x j + x j / x i) := by
    refine Finset.sum_le_sum fun i _ => ?_
    refine Finset.sum_le_sum fun j _ => ?_
    exact two_le_div_add_div (hx i) (hx j)
  rw [sum_div_pair_eq, sum_sum_two] at hT
  linarith

theorem sq_card_lt_sum_mul_sum_inv {n : ℕ} (x : Fin n → ℝ) (hx : ∀ i, 0 < x i)
    (i0 j0 : Fin n) (hne : x i0 ≠ x j0) :
    ((n : ℝ)) ^ 2 < (∑ i, x i) * (∑ j, (x j)⁻¹) := by
  have hT : (∑ _i : Fin n, ∑ _j : Fin n, (2 : ℝ)) <
      ∑ i, ∑ j, (x i / x j + x j / x i) := by
    apply Finset.sum_lt_sum
    · intro i _
      refine Finset.sum_le_sum fun j _ => ?_
      exact two_le_div_add_div (hx i) (hx j)
    · refine ⟨i0, Finset.mem_univ _, ?_⟩
      apply Finset.sum_lt_sum
      · intro j _
        exact two_le_div_add_div (hx i0) (hx j)
      · exact ⟨j0, Finset.mem_univ _, two_lt_div_add_div (hx i0) (hx j0) hne⟩
  rw [sum_div_pair_eq, sum_sum_two] at hT
  linarith

theorem list_sum_get (data : List ℝ) :
    (∑ i : Fin data.length, data.get i) = data.sum := by
  simp

theorem list_recip_sum_get (data : List ℝ) :
    (∑ i : Fin data.length, (data.get i)⁻¹) = (data.map fun x => 1 / x).sum := by
  simp [one_div]

theorem list_sq_length_le (data : List ℝ) (hpos : ∀ x ∈ data, 0 < x) :
    ((data.length : ℝ)) ^ 2 ≤ data.sum * (data.map fun x => 1 / x).sum := by
  have hx : ∀ i : Fin data.length, 0 < data.get i :=
    fun i => hpos _ (List.get_mem data i.1 i.2)
  have h := sq_card_le_sum_mul_sum_inv (fun i : Fin data.length => data.get i) hx
  rwa [list_sum_get, list_recip_sum_get] at h

theorem list_sq_length_lt (data : List ℝ) (hpos : ∀ x ∈ data, 0 < x)
    {x0 y0 : ℝ} (hx0 : x0 ∈ data) (hy0 : y0 ∈ data) (hxy : x0 ≠ y0) :
    ((data.length : ℝ)) ^ 2 < data.sum * (data.map fun x => 1 / x).sum := by
  have hx : ∀ i : Fin data.length, 0 < data.get i :=
    fun i => hpos _ (List.get_mem data i.1 i.2)
  obtain ⟨i0, hi0⟩ := List.get_of_mem hx0
  obtain ⟨j0, hj0⟩ := List.get_of_mem hy0
  have h := sq_card_lt_sum_mul_sum_inv (fun i : Fin data.length => data.get i) hx
    i0 j0 (by
      show data.get i0 ≠ data.get j0
      rw [hi0, hj0]
      exact hxy)
  rwa [list_sum_get, list_recip_sum_get] at h

/-- C9: for a non-empty sequence of strictly positive values, the arithmetic
mean is at least the harmonic mean, with equality exactly when all elements
are equal (both means taken from the embedded routines, which succeed on
such input). -/
theorem claim_C9 (data : List ℝ) (hne : data ≠ []) (hpos : ∀ x ∈ data, 0 < x) :
    ∃ a h, arithmetic_mean data = .ok a ∧ harmonic_mean data = .ok h ∧
      h ≤ a ∧ (a = h ↔ ∀ x ∈ data, ∀ y ∈ data, x = y) := by
  have hfil : posFilter data = data := by
    rw [posFilter, List.filter_eq_self]
    intro x hx
    exact decide_eq_true (hpos x hx)
  have hn0 : data.length ≠ 0 := fun h => hne (List.length_eq_zero.mp h)
  have hnr : (0 : ℝ) < (data.length : ℝ) := by
    exact_mod_cast Nat.pos_of_ne_zero hn0
  have hR : 0 < (data.map fun x => 1 / x).sum := by
    apply List.sum_pos
    · intro y hy
      rcases List.mem_map.mp hy with ⟨x, hx, rfl⟩
      have := hpos x hx
      positivity
    · intro hmap
      apply hne
      have := congrArg List.length hmap
      simpa using this
  have hh : harmonicSpecVal data =
      (data.length : ℝ) / (data.map fun x => 1 / x).sum := by
    rw [harmonicSpecVal, hfil, if_neg hn0]
  refine ⟨meanVal data, harmonicSpecVal data, arithmetic_mean_ok data hne,
    harmonic_mean_ok data, ?_, ?_⟩
  · rw [hh, meanVal, div_le_div_iff hR hnr]
    have h := list_sq_length_le data hpos
    nlinarith [h]
  · rw [hh, meanVal]
    constructor
    · intro heq
      by_contra hcon
      push_neg at hcon
      obtain ⟨x0, hx0, y0, hy0, hxy⟩ := hcon
      have hlt := list_sq_length_lt data hpos hx0 hy0 hxy
      have heq2 : data.sum * (data.map fun x => 1 / x).sum =
          (data.length : ℝ) * (data.length : ℝ) :=
        (div_eq_div_iff (ne_of_gt hnr) (ne_of_gt hR)).mp heq
      nlinarith [hlt, heq2]
    · intro hall
      have hc : ∃ c, c ∈ data := by
        cases data with
        | nil => exact absurd rfl hne
        | cons a as => exact ⟨a, List.mem_cons_self _ _⟩
      obtain ⟨c, hc⟩ := hc
      have hc0 : c ≠ 0 := ne_of_gt (hpos c hc)
      have hsum : data.sum = data.length • c :=
        List.sum_eq_card_nsmul data c fun x hx => hall x hx c hc
      have hmap : (data.map fun x => 1 / x).sum = data.length • (1 / c) := by
        have h := List.sum_eq_card_nsmul (data.map fun x => 1 / x) (1 / c)
          (fun y hy => by
            rcases List.mem_map.mp hy with ⟨x, hx, rfl⟩
            rw [hall x hx c hc])
        simpa using h
      rw [hsum, hmap, nsmul_eq_mul, nsmul_eq_mul]
      rw [mul_one_div]
      field_simp

/-- Witness for C9 at the concrete input [1, 2]. -/
theorem claim_C9_witness :
    ∃ a h, arithmetic_mean [(1 : ℝ), 2] = .ok a ∧
      harmonic_mean [(1 : ℝ), 2] = .ok h ∧
      h ≤ a ∧ (a = h ↔ ∀ x ∈ [(1 : ℝ), 2], ∀ y ∈ [(1 : ℝ), 2], x = y) :=
  claim_C9 [(1 : ℝ), 2] (by simp)
    (by
      intro x hx
      simp only [List.mem_cons, List.not_mem_nil, or_false] at hx
      rcases hx with rfl | rfl <;> norm_num)

end StatsFunctions
